import Mathlib

/-!
Shallow embedding of the cron-to-launchd translator in
`src/lib/utilities/plist-builder.ts` of the `itson` repository.

The translator consumes an already-parsed cron field set (the external
cron parser is out of scope) and produces either a boot-time marker, a
repeat interval, or a list of calendar entries.  Machine numbers in the
source are JavaScript numbers holding small integers; we model them as
`Int`.  Thrown exceptions are modelled with `Except` carrying an error
value; the human-readable message of each error is reproduced by
`errorMessage`.
-/

namespace ItsOn

/-- A serialized cron field as produced by the external parser:
a wildcard flag plus the list of concrete values.  The parser also
populates the value list of wildcard fields with the full legal range. -/
structure CronField where
  wildcard : Bool
  values : List Int
deriving DecidableEq

/-- The six serialized cron fields consumed by the translator. -/
structure CronFields where
  second : CronField
  minute : CronField
  hour : CronField
  dayOfMonth : CronField
  month : CronField
  dayOfWeek : CronField
deriving DecidableEq

/-- The translator output: the launchd plist fragment.  `runAtLoad`
models `{RunAtLoad: true}`, `startInterval` models `{StartInterval: n}`,
and `startCalendarInterval` models `{StartCalendarInterval: [...]}`
where each entry is an ordered association list of field keys to values. -/
inductive PlistFragment where
  | runAtLoad
  | startInterval (seconds : Int)
  | startCalendarInterval (entries : List (List (String × Int)))
deriving DecidableEq

/-- The errors thrown by `cronToPlistFragment`, one constructor per
distinct `throw` site reachable through the modelled numeric fields. -/
inductive CronError where
  | singleSecondMustBeZero (v : Int)
  | secondsOnlyWithWildcards (v : Int)
  | inconsistentSecondsInterval (values : List Int)
  | secondsIntervalNeedsWildcards (interval : Int)
  | degenerateSecondsInterval (rawValue : String)
  | wildcardSecondsNeedsWildcards
  | tooManyPermutations (permutations : Nat)
  | noCalendarItems (cronString : String)
deriving DecidableEq

/-- Join a list of integers with a comma separator, as the JS template
string does for the inconsistent-interval message. -/
def joinValues (values : List Int) : String :=
  String.intercalate ", " (values.map toString)

/-- The message text of each error, reproduced from the source
(apostrophes written with an escape). -/
def errorMessage : CronError → String
  | .singleSecondMustBeZero v =>
      "Invalid seconds value: " ++ toString v ++
        ". Single second values must be 0, not " ++ toString v ++ "."
  | .secondsOnlyWithWildcards v =>
      "Invalid seconds value: " ++ toString v ++
        ". Seconds field can only be used when all other fields (minute, hour, day, month, weekday) are wildcards."
  | .inconsistentSecondsInterval values =>
      "Invalid seconds interval. Values [" ++ joinValues values ++
        "] do not form a consistent interval starting at 0."
  | .secondsIntervalNeedsWildcards interval =>
      "Seconds interval (" ++ toString interval ++
        "s) can only be used when all other fields (minute, hour, day, month, weekday) are wildcards. Use \x27StartInterval\x27 requires all other fields to be \x27*\x27."
  | .degenerateSecondsInterval rawValue =>
      "Invalid seconds interval: \x27" ++ rawValue ++
        "\x27 only produces a single value (0). Use a valid interval that produces multiple values within 0-59 seconds, or use \x270 * * * * *\x27 to run every minute."
  | .wildcardSecondsNeedsWildcards =>
      "Seconds wildcard can only be used when all other fields (minute, hour, day, month, weekday) are wildcards. For sub-minute scheduling, use \x27* * * * * *\x27 (every second)."
  | .tooManyPermutations permutations =>
      "Too many permutations: " ++ toString permutations
  | .noCalendarItems cronString =>
      "No start calendar interval items found for cron string: " ++ cronString

/-- Source `getConsistentSecondInterval`: validates that a list of
second values is an arithmetic progression starting at 0 whose next
element would reach or cross 60, and returns the common difference. -/
def getConsistentSecondInterval (values : List Int) : Option Int :=
  match values with
  | v0 :: v1 :: rest =>
    let vs := v0 :: v1 :: rest
    let interval := v1 - v0
    if (∀ p ∈ vs.enum, p.2 - v0 = interval * (p.1 : Int)) ∧
        vs.getLastD 0 + interval ≥ 60 ∧ v0 = 0 then
      some interval
    else
      none
  | _ => none

/-- Source `deduplicateWeekdays`: collapse the two encodings of Sunday
(0 and 7) in an explicit day-of-week value list. -/
def deduplicateWeekdays (values : List Int) : List Int :=
  let hasZero := values.contains 0
  let hasSeven := values.contains 7
  if hasZero && hasSeven then
    values.filter fun v => decide (v ≠ 7)
  else if hasSeven && !hasZero then
    values.map fun v => if v = 7 then 0 else v
  else
    values

/-- Source `cronKeyToPlistKey`: map a serialized cron field key to the
launchd calendar key.  The source throws on `second` and on unknown
keys; those cases are modelled as `none` (they are unreachable from the
fixed key set used by the translator). -/
def cronKeyToPlistKey : String → Option String
  | "dayOfMonth" => some "Day"
  | "dayOfWeek" => some "Weekday"
  | "hour" => some "Hour"
  | "month" => some "Month"
  | "second" => none
  | "minute" => some "Minute"
  | _ => none

/-- The five non-second serialized fields, in the serialization order of
the external parser (minute, hour, dayOfMonth, month, dayOfWeek). -/
def nonSecondFields (f : CronFields) : List (String × CronField) :=
  [("minute", f.minute), ("hour", f.hour), ("dayOfMonth", f.dayOfMonth),
   ("month", f.month), ("dayOfWeek", f.dayOfWeek)]

/-- Source: `Object.entries(serializedFields).every(([_, value]) => value.wildcard)`. -/
def allOtherFieldsWild (f : CronFields) : Bool :=
  (nonSecondFields f).all fun p => p.2.wildcard

/-- Source: the construction of `fieldsToCreate` — keep the non-wildcard
non-second fields, rename their keys, and deduplicate weekday values. -/
def fieldsToCreate (f : CronFields) : List (String × List Int) :=
  ((nonSecondFields f).filter fun p => !p.2.wildcard).map fun p =>
    ((cronKeyToPlistKey p.1).getD p.1,
     if p.1 == "dayOfWeek" then deduplicateWeekdays p.2.values else p.2.values)

/-- Source: `Object.values(fieldsToCreate).reduce((acc, current) => acc * current.length, 1)`. -/
def totalPermutations (fields : List (String × List Int)) : Nat :=
  fields.foldl (fun acc p => acc * p.2.length) 1

/-- Source: the body of the permutation loop — calendar entry `i`
assigns each field the value at position `i % values.length` in that
field's value list. -/
def permutationEntry (fields : List (String × List Int)) (i : Nat) : List (String × Int) :=
  fields.map fun p => (p.1, p.2.getD (i % p.2.length) 0)

/-- Source: the permutation loop `for (let i = 0; i < permutations; i++)`. -/
def buildEntries (fields : List (String × List Int)) (total : Nat) :
    List (List (String × Int)) :=
  (List.range total).map (permutationEntry fields)

/-- Source: the tail of `cronToPlistFragment` after the seconds checks —
the all-wildcard shortcuts, the explosion ceiling, entry generation and
the empty-result invariant check. -/
def expand (f : CronFields) (cronString : String) : Except CronError PlistFragment :=
  let ftc := fieldsToCreate f
  if ftc.isEmpty && f.second.wildcard then
    .ok (.startInterval 1)
  else
    let ftc2 := if ftc.isEmpty then [("Minute", f.minute.values)] else ftc
    let permutations := totalPermutations ftc2
    if permutations > 2 ^ 16 then
      .error (.tooManyPermutations permutations)
    else
      let entries := buildEntries ftc2 permutations
      if entries.isEmpty then
        .error (.noCalendarItems cronString)
      else
        .ok (.startCalendarInterval entries)

/-- The body of `cronToPlistFragment` after parsing: the seconds
decision table followed by expansion.  `secondRawValue` is the raw text
of the seconds token, consulted only by the degenerate-interval check. -/
def translateFields (f : CronFields) (secondRawValue : String) (cronString : String) :
    Except CronError PlistFragment :=
  let allWild := allOtherFieldsWild f
  let secondValues := f.second.values
  if !f.second.wildcard ∧ secondValues.length = 1 ∧ secondValues.headD 0 ≠ 0 then
    if allWild then
      .error (.singleSecondMustBeZero (secondValues.headD 0))
    else
      .error (.secondsOnlyWithWildcards (secondValues.headD 0))
  else if !f.second.wildcard ∧ secondValues.length > 1 then
    match getConsistentSecondInterval secondValues with
    | none => .error (.inconsistentSecondsInterval secondValues)
    | some interval =>
      if !allWild then
        .error (.secondsIntervalNeedsWildcards interval)
      else
        .ok (.startInterval interval)
  else if !f.second.wildcard ∧ secondValues.length = 1 ∧ secondValues.headD 0 = 0 ∧
      allWild ∧ secondRawValue.data.contains '/' then
    .error (.degenerateSecondsInterval secondRawValue)
  else if f.second.wildcard ∧ !allWild then
    .error .wildcardSecondsNeedsWildcards
  else
    expand f cronString

/-- The JS `String.prototype.trim`: remove whitespace characters from
both ends of the string, modelled over the character list. -/
def jsTrim (s : String) : String :=
  ⟨((s.data.dropWhile Char.isWhitespace).reverse.dropWhile Char.isWhitespace).reverse⟩

/-- Source `cronToPlistFragment`: the reboot special case followed by
the parsed-field translation.  Parsing itself is external, so the parsed
field set and the raw seconds token are passed in. -/
def cronToPlistFragment (cronString : String) (parsed : CronFields)
    (secondRawValue : String) : Except CronError PlistFragment :=
  if jsTrim cronString == "@reboot" then
    .ok .runAtLoad
  else
    translateFields parsed secondRawValue cronString

/-- Inclusive integer range, used for the value lists the external
parser attaches to wildcard fields. -/
def intRange (lo hi : Int) : List Int :=
  (List.range ((hi - lo).toNat + 1)).map fun i => lo + Int.ofNat i

/-- A wildcard field carrying its full legal range, as serialized by the
external parser. -/
def wildcardField (lo hi : Int) : CronField :=
  ⟨true, intRange lo hi⟩

/-- The seconds field of a 5-field cron expression: the parser defaults
it to the single explicit value 0, not a wildcard. -/
def defaultSecond : CronField :=
  ⟨false, [0]⟩

/-- The parsed form of an all-wildcard six-field expression. -/
def allWildFields : CronFields :=
  ⟨wildcardField 0 59, wildcardField 0 59, wildcardField 0 23,
   wildcardField 1 31, wildcardField 1 12, wildcardField 0 7⟩

/-- A parsed field set with explicit minute and hour value lists,
defaulted seconds, and all remaining fields wildcard. -/
def twoFieldSet (la lb : List Int) : CronFields :=
  ⟨defaultSecond, ⟨false, la⟩, ⟨false, lb⟩,
   wildcardField 1 31, wildcardField 1 12, wildcardField 0 7⟩

deriving instance DecidableEq for Except

example : deduplicateWeekdays [0, 3, 7] = [0, 3] := by decide

example : deduplicateWeekdays [3, 7] = [3, 0] := by decide

example : getConsistentSecondInterval [0, 15, 30, 45] = some 15 := by decide

example : getConsistentSecondInterval [0, 10, 25] = none := by decide

example : getConsistentSecondInterval [5, 10] = none := by decide

example :
    translateFields (twoFieldSet [0, 30] [9, 17]) "0" "x" =
      .ok (.startCalendarInterval
        [[("Minute", 0), ("Hour", 9)], [("Minute", 30), ("Hour", 17)],
         [("Minute", 0), ("Hour", 9)], [("Minute", 30), ("Hour", 17)]]) := by decide

example : cronToPlistFragment " @reboot " allWildFields "*" = .ok .runAtLoad := by decide

lemma length_buildEntries (fields : List (String × List Int)) (total : Nat) :
    (buildEntries fields total).length = total := by
  simp [buildEntries]

lemma buildEntries_getD (fields : List (String × List Int)) (total i : Nat)
    (h : i < total) :
    (buildEntries fields total).getD i [] = permutationEntry fields i := by
  have hlen : i < ((List.range total).map (permutationEntry fields)).length := by
    simpa using h
  rw [buildEntries, List.getD_eq_getElem _ _ hlen]
  simp

lemma mem_buildEntries {fields : List (String × List Int)} {total : Nat}
    {e : List (String × Int)} (h : e ∈ buildEntries fields total) :
    ∃ i, i < total ∧ e = permutationEntry fields i := by
  simp only [buildEntries, List.mem_map, List.mem_range] at h
  obtain ⟨i, hi, rfl⟩ := h
  exact ⟨i, hi, rfl⟩

lemma foldl_mul_lengths (fields : List (String × List Int)) (init : Nat) :
    fields.foldl (fun acc p => acc * p.2.length) init =
      init * (fields.map fun p => p.2.length).prod := by
  induction fields generalizing init with
  | nil => simp
  | cons p rest ih => simp [List.foldl_cons, ih, Nat.mul_assoc]

lemma totalPermutations_eq_prod (fields : List (String × List Int)) :
    totalPermutations fields = (fields.map fun p => p.2.length).prod := by
  simp [totalPermutations, foldl_mul_lengths]

lemma totalPermutations_pos (fields : List (String × List Int))
    (h : ∀ p ∈ fields, p.2 ≠ []) : 0 < totalPermutations fields := by
  rw [totalPermutations_eq_prod]
  apply List.prod_pos
  intro a ha
  simp only [List.mem_map] at ha
  obtain ⟨p, hp, rfl⟩ := ha
  exact List.length_pos.mpr (h p hp)

lemma mem_fieldsToCreate {f : CronFields} {p : String × List Int}
    (h : p ∈ fieldsToCreate f) :
    p = ("Minute", f.minute.values) ∨ p = ("Hour", f.hour.values) ∨
    p = ("Day", f.dayOfMonth.values) ∨ p = ("Month", f.month.values) ∨
    p = ("Weekday", deduplicateWeekdays f.dayOfWeek.values) := by
  simp only [fieldsToCreate, List.mem_map, List.mem_filter] at h
  obtain ⟨q, ⟨hq, _⟩, rfl⟩ := h
  simp only [nonSecondFields, List.mem_cons, List.not_mem_nil, or_false] at hq
  rcases hq with h | h | h | h | h
  · exact Or.inl (by rw [h]; rfl)
  · exact Or.inr (Or.inl (by rw [h]; rfl))
  · exact Or.inr (Or.inr (Or.inl (by rw [h]; rfl)))
  · exact Or.inr (Or.inr (Or.inr (Or.inl (by rw [h]; rfl))))
  · exact Or.inr (Or.inr (Or.inr (Or.inr (by rw [h]; rfl))))

lemma allOtherFieldsWild_iff (f : CronFields) :
    allOtherFieldsWild f = true ↔
      f.minute.wildcard = true ∧ f.hour.wildcard = true ∧
      f.dayOfMonth.wildcard = true ∧ f.month.wildcard = true ∧
      f.dayOfWeek.wildcard = true := by
  simp [allOtherFieldsWild, nonSecondFields]

lemma fieldsToCreate_eq_nil_of_allWild {f : CronFields}
    (h : allOtherFieldsWild f = true) : fieldsToCreate f = [] := by
  rw [allOtherFieldsWild_iff] at h
  obtain ⟨h1, h2, h3, h4, h5⟩ := h
  simp [fieldsToCreate, nonSecondFields, List.filter, h1, h2, h3, h4, h5]

lemma allWild_of_fieldsToCreate_eq_nil {f : CronFields}
    (h : fieldsToCreate f = []) : allOtherFieldsWild f = true := by
  simp only [fieldsToCreate, List.map_eq_nil_iff, List.filter_eq_nil_iff] at h
  rw [allOtherFieldsWild_iff]
  exact ⟨by simpa using h ("minute", f.minute) (by simp [nonSecondFields]),
    by simpa using h ("hour", f.hour) (by simp [nonSecondFields]),
    by simpa using h ("dayOfMonth", f.dayOfMonth) (by simp [nonSecondFields]),
    by simpa using h ("month", f.month) (by simp [nonSecondFields]),
    by simpa using h ("dayOfWeek", f.dayOfWeek) (by simp [nonSecondFields])⟩

example :
    translateFields allWildFields "*" "x" = .ok (.startInterval 1) := by decide

lemma translateFields_defaultedZero (f : CronFields) (raw s : String)
    (hw : f.second.wildcard = false) (hv : f.second.values = [0])
    (hnw : allOtherFieldsWild f = false) :
    translateFields f raw s = expand f s := by
  simp [translateFields, hw, hv, hnw]

lemma translateFields_defaultedZero_wild (f : CronFields) (raw s : String)
    (hw : f.second.wildcard = false) (hv : f.second.values = [0])
    (hslash : raw.data.contains '/' = false) :
    translateFields f raw s = expand f s := by
  have h' : '/' ∉ raw.data := by simpa using hslash
  simp [translateFields, hw, hv, h']

lemma fieldsToCreate_twoFieldSet (la lb : List Int) :
    fieldsToCreate (twoFieldSet la lb) = [("Minute", la), ("Hour", lb)] := rfl

lemma totalPermutations_pair (la lb : List Int) :
    totalPermutations [("Minute", la), ("Hour", lb)] = la.length * lb.length := by
  simp [totalPermutations]

lemma buildEntries_ne_nil (fields : List (String × List Int)) (total : Nat)
    (h : 0 < total) : buildEntries fields total ≠ [] := by
  intro hc
  have hl := length_buildEntries fields total
  rw [hc] at hl
  simp only [List.length_nil] at hl
  omega

lemma translateFields_twoFieldSet (la lb : List Int) (s : String)
    (ha : la ≠ []) (hb : lb ≠ [])
    (hbound : la.length * lb.length ≤ 2 ^ 16) :
    translateFields (twoFieldSet la lb) "0" s =
      .ok (.startCalendarInterval
        (buildEntries [("Minute", la), ("Hour", lb)] (la.length * lb.length))) := by
  rw [translateFields_defaultedZero (twoFieldSet la lb) "0" s rfl rfl rfl]
  have hpos : 0 < la.length * lb.length :=
    Nat.mul_pos (List.length_pos.mpr ha) (List.length_pos.mpr hb)
  simp only [expand, fieldsToCreate_twoFieldSet, List.isEmpty_cons, Bool.false_and,
    Bool.false_eq_true, if_false, totalPermutations_pair]
  rw [if_neg (by omega), if_neg]
  rw [List.isEmpty_eq_false.mpr (buildEntries_ne_nil _ _ hpos)]
  simp

lemma forall_mem_enum_iff (l : List Int) (P : Nat → Int → Prop) :
    (∀ p ∈ l.enum, P p.1 p.2) ↔ ∀ i, i < l.length → P i (l.getD i 0) := by
  constructor
  · intro h i hi
    have hm : (i, l.getD i 0) ∈ l.enum := by
      rw [List.mem_enum_iff_getElem?]
      rw [List.getElem?_eq_getElem hi, List.getD_eq_getElem l 0 hi]
    exact h _ hm
  · intro h p hp
    obtain ⟨i, x⟩ := p
    rw [List.mem_enum_iff_getElem?] at hp
    have hi : i < l.length := by
      by_contra hc
      rw [List.getElem?_eq_none (by omega)] at hp
      exact Option.noConfusion hp
    have hx : l.getD i 0 = x := by
      rw [List.getD_eq_getElem l 0 hi]
      rw [List.getElem?_eq_getElem hi] at hp
      injection hp
    rw [← hx]
    exact h i hi

lemma getConsistentSecondInterval_some_iff (v0 v1 : Int) (rest : List Int) (step : Int) :
    getConsistentSecondInterval (v0 :: v1 :: rest) = some step ↔
      (step = v1 - v0 ∧ (v0 :: v1 :: rest).getD 0 0 = 0 ∧
       (∀ i, i < (v0 :: v1 :: rest).length →
         (v0 :: v1 :: rest).getD i 0 - v0 = step * (i : Int)) ∧
       (v0 :: v1 :: rest).getLastD 0 + step ≥ 60) := by
  show (if (∀ p ∈ (v0 :: v1 :: rest).enum, p.2 - v0 = (v1 - v0) * (p.1 : Int)) ∧
      (v0 :: v1 :: rest).getLastD 0 + (v1 - v0) ≥ 60 ∧ v0 = 0 then
      some (v1 - v0) else none) = some step ↔ _
  have hconv := forall_mem_enum_iff (v0 :: v1 :: rest)
    (fun i x => x - v0 = (v1 - v0) * (i : Int))
  split_ifs with hc
  · obtain ⟨hall, hlast, h0⟩ := hc
    replace hall := hconv.mp hall
    constructor
    · intro h
      injection h with h
      subst h
      exact ⟨rfl, by simpa using h0, hall, hlast⟩
    · intro h
      rw [h.1]
  · constructor
    · intro h
      exact absurd h (by simp)
    · rintro ⟨h1, h0, hall, hlast⟩
      subst h1
      exact absurd ⟨hconv.mpr hall, hlast, by simpa using h0⟩ hc

lemma translateFields_multiSecond_none (f : CronFields) (raw s : String)
    (hw : f.second.wildcard = false) (hlen : 1 < f.second.values.length)
    (hgi : getConsistentSecondInterval f.second.values = none) :
    translateFields f raw s =
      .error (.inconsistentSecondsInterval f.second.values) := by
  have h1 : f.second.values.length ≠ 1 := by omega
  simp [translateFields, hw, h1, hlen, hgi]

lemma translateFields_multiSecond_some (f : CronFields) (raw s : String)
    (interval : Int)
    (hw : f.second.wildcard = false) (hlen : 1 < f.second.values.length)
    (hgi : getConsistentSecondInterval f.second.values = some interval) :
    translateFields f raw s =
      if !allOtherFieldsWild f then
        .error (.secondsIntervalNeedsWildcards interval)
      else
        .ok (.startInterval interval) := by
  have h1 : f.second.values.length ≠ 1 := by omega
  simp [translateFields, hw, h1, hlen, hgi]

/-- C2: for an explicit seconds list with at least two values, the
translation yields a repeat interval of the common difference exactly
when the list is an arithmetic progression from 0 whose next element
reaches 60 and every other field is wildcard; a consistent progression
with a non-wildcard other field fails, and an inconsistent list fails. -/
theorem seconds_interval_translation (f : CronFields) (raw s : String)
    (v0 v1 : Int) (rest : List Int)
    (hw : f.second.wildcard = false)
    (hv : f.second.values = v0 :: v1 :: rest)
    (hsorted : List.Chain' (· < ·) (v0 :: v1 :: rest)) :
    (translateFields f raw s = .ok (.startInterval (v1 - v0)) ↔
      (v0 = 0 ∧
       (∀ i, i < (v0 :: v1 :: rest).length →
         (v0 :: v1 :: rest).getD i 0 - v0 = (v1 - v0) * (i : Int)) ∧
       (v0 :: v1 :: rest).getLastD 0 + (v1 - v0) ≥ 60 ∧
       allOtherFieldsWild f = true)) ∧
    (∀ x, translateFields f raw s = .ok (.startInterval x) → x = v1 - v0) ∧
    (getConsistentSecondInterval (v0 :: v1 :: rest) = some (v1 - v0) →
      allOtherFieldsWild f = false →
      translateFields f raw s = .error (.secondsIntervalNeedsWildcards (v1 - v0))) ∧
    (getConsistentSecondInterval (v0 :: v1 :: rest) = none →
      translateFields f raw s = .error (.inconsistentSecondsInterval (v0 :: v1 :: rest))) := by
  have hlen : 1 < f.second.values.length := by
    rw [hv]
    simp
  cases hgi : getConsistentSecondInterval (v0 :: v1 :: rest) with
  | none =>
    have htr := translateFields_multiSecond_none f raw s hw hlen (by rw [hv]; exact hgi)
    rw [hv] at htr
    refine ⟨?_, ?_, ?_, ?_⟩
    · rw [htr]
      constructor
      · intro h
        exact absurd h (by simp)
      · rintro ⟨h0, hall, hlast, _⟩
        have hsome : getConsistentSecondInterval (v0 :: v1 :: rest) = some (v1 - v0) :=
          (getConsistentSecondInterval_some_iff v0 v1 rest (v1 - v0)).mpr
            ⟨rfl, by simpa using h0, hall, hlast⟩
        rw [hgi] at hsome
        exact Option.noConfusion hsome
    · intro x h
      rw [htr] at h
      exact absurd h (by simp)
    · intro h
      exact absurd h (by simp)
    · intro _
      exact htr
  | some interval =>
    obtain ⟨hstep, h0, hall, hlast⟩ :=
      (getConsistentSecondInterval_some_iff v0 v1 rest interval).mp hgi
    subst hstep
    have htr := translateFields_multiSecond_some f raw s (v1 - v0) hw hlen
      (by rw [hv]; exact hgi)
    cases haw : allOtherFieldsWild f with
    | false =>
      rw [haw] at htr
      simp only [Bool.not_false, if_pos] at htr
      refine ⟨?_, ?_, ?_, ?_⟩
      · rw [htr]
        constructor
        · intro h
          exact absurd h (by simp)
        · rintro ⟨_, _, _, h⟩
          exact Bool.noConfusion h
      · intro x h
        rw [htr] at h
        exact absurd h (by simp)
      · intro _ _
        exact htr
      · intro h
        exact Option.noConfusion h
    | true =>
      rw [haw] at htr
      simp only [Bool.not_true, Bool.false_eq_true, if_false] at htr
      refine ⟨?_, ?_, ?_, ?_⟩
      · rw [htr]
        constructor
        · intro _
          exact ⟨by simpa using h0, hall, hlast, rfl⟩
        · intro _
          rfl
      · intro x h
        rw [htr] at h
        injection h with h
        injection h with h
        omega
      · intro _ hc
        exact Bool.noConfusion hc
      · intro h
        exact Option.noConfusion h

/-- A parsed field set with the given explicit seconds values and all
other fields wildcard. -/
def secondsFields (vals : List Int) : CronFields :=
  ⟨⟨false, vals⟩, wildcardField 0 59, wildcardField 0 23,
   wildcardField 1 31, wildcardField 1 12, wildcardField 0 7⟩

/-- Witness for C2 at the seconds list [0, 20, 40] of a six-field
expression with every other field wildcard. -/
theorem seconds_interval_translation_witness :
    (translateFields (secondsFields [0, 20, 40]) "*" "x" =
        .ok (.startInterval (20 - 0)) ↔
      ((0 : Int) = 0 ∧
       (∀ i, i < ([0, 20, 40] : List Int).length →
         ([0, 20, 40] : List Int).getD i 0 - 0 = (20 - 0) * (i : Int)) ∧
       ([0, 20, 40] : List Int).getLastD 0 + (20 - 0) ≥ 60 ∧
       allOtherFieldsWild (secondsFields [0, 20, 40]) = true)) ∧
    (∀ x, translateFields (secondsFields [0, 20, 40]) "*" "x" =
      .ok (.startInterval x) → x = 20 - 0) ∧
    (getConsistentSecondInterval [0, 20, 40] = some (20 - 0) →
      allOtherFieldsWild (secondsFields [0, 20, 40]) = false →
      translateFields (secondsFields [0, 20, 40]) "*" "x" =
        .error (.secondsIntervalNeedsWildcards (20 - 0))) ∧
    (getConsistentSecondInterval [0, 20, 40] = none →
      translateFields (secondsFields [0, 20, 40]) "*" "x" =
        .error (.inconsistentSecondsInterval [0, 20, 40])) :=
  seconds_interval_translation (secondsFields [0, 20, 40]) "*" "x" 0 20 [40]
    rfl rfl (by norm_num [List.chain'_cons])

/-- C3 counterexample: the reboot match in the source is case-sensitive.
The input "@REBOOT" equals the reboot literal up to letter case after
trimming, yet the translator does not short-circuit to the run-at-load
marker: with an all-wildcard parsed field set it proceeds to normal
translation and returns a one-second repeat interval. -/
theorem reboot_case_insensitive_counterexample :
    (jsTrim "@REBOOT").data.map Char.toLower = "@reboot".data ∧
    cronToPlistFragment "@REBOOT" allWildFields "*" = .ok (.startInterval 1) ∧
    cronToPlistFragment "@REBOOT" allWildFields "*" ≠ .ok .runAtLoad := by
  refine ⟨by decide, by decide, by decide⟩

/-- C3 (amended): for every input string whose trimmed form equals the
literal "@reboot" exactly (case-sensitively), the translator
short-circuits before consulting the parsed fields and returns the
run-at-load marker, never a schedule fragment. -/
theorem reboot_short_circuit (s raw : String) (f : CronFields)
    (h : jsTrim s = "@reboot") :
    cronToPlistFragment s f raw = .ok .runAtLoad := by
  simp [cronToPlistFragment, h]

/-- Witness for the amended C3 at a padded lowercase reboot string. -/
theorem reboot_short_circuit_witness :
    cronToPlistFragment "  @reboot " allWildFields "*" = .ok .runAtLoad :=
  reboot_short_circuit "  @reboot " "*" allWildFields (by decide)

lemma singleSecond_messages_distinct (v : Int) :
    errorMessage (.singleSecondMustBeZero v) ≠
      errorMessage (.secondsOnlyWithWildcards v) := by
  intro h
  have hd := congrArg String.data h
  simp only [errorMessage, String.data_append, List.append_assoc] at hd
  have h2 := List.append_cancel_left (List.append_cancel_left hd)
  have h3 := congrArg (List.take 4) h2
  rw [List.take_append_of_le_length (by decide)] at h3
  revert h3
  decide

/-- C5: a single nonzero explicit seconds value always fails, with the
"must be 0" error when every other field is wildcard and the "only valid
with wildcards" error otherwise; the two messages differ. -/
theorem single_nonzero_second_fails (f : CronFields) (raw s : String) (v : Int)
    (hw : f.second.wildcard = false) (hv : f.second.values = [v]) (hnz : v ≠ 0) :
    (allOtherFieldsWild f = true →
      translateFields f raw s = .error (.singleSecondMustBeZero v)) ∧
    (allOtherFieldsWild f = false →
      translateFields f raw s = .error (.secondsOnlyWithWildcards v)) ∧
    errorMessage (.singleSecondMustBeZero v) =
      "Invalid seconds value: " ++ toString v ++
        ". Single second values must be 0, not " ++ toString v ++ "." ∧
    errorMessage (.secondsOnlyWithWildcards v) =
      "Invalid seconds value: " ++ toString v ++
        ". Seconds field can only be used when all other fields (minute, hour, day, month, weekday) are wildcards." ∧
    errorMessage (.singleSecondMustBeZero v) ≠
      errorMessage (.secondsOnlyWithWildcards v) := by
  refine ⟨?_, ?_, rfl, rfl, singleSecond_messages_distinct v⟩
  · intro haw
    simp [translateFields, hw, hv, hnz, haw]
  · intro haw
    simp [translateFields, hw, hv, hnz, haw]

/-- A parsed field set with the explicit seconds value list `vals`, a
fixed hour, and every other field wildcard. -/
def secondsHourFields (vals : List Int) : CronFields :=
  ⟨⟨false, vals⟩, wildcardField 0 59, ⟨false, [1]⟩,
   wildcardField 1 31, wildcardField 1 12, wildcardField 0 7⟩

/-- Witness for C5 at the seconds list [1] with a fixed hour field. -/
theorem single_nonzero_second_fails_witness :
    (allOtherFieldsWild (secondsHourFields [1]) = true →
      translateFields (secondsHourFields [1]) "1" "x" =
        .error (.singleSecondMustBeZero 1)) ∧
    (allOtherFieldsWild (secondsHourFields [1]) = false →
      translateFields (secondsHourFields [1]) "1" "x" =
        .error (.secondsOnlyWithWildcards 1)) ∧
    errorMessage (.singleSecondMustBeZero 1) =
      "Invalid seconds value: " ++ toString (1 : Int) ++
        ". Single second values must be 0, not " ++ toString (1 : Int) ++ "." ∧
    errorMessage (.secondsOnlyWithWildcards 1) =
      "Invalid seconds value: " ++ toString (1 : Int) ++
        ". Seconds field can only be used when all other fields (minute, hour, day, month, weekday) are wildcards." ∧
    errorMessage (.singleSecondMustBeZero 1) ≠
      errorMessage (.secondsOnlyWithWildcards 1) :=
  single_nonzero_second_fails (secondsHourFields [1]) "1" "x" 1 rfl rfl
    (by decide)

/-- C6: a wildcard seconds field with any non-wildcard other field
fails, and a wildcard seconds field with every other field wildcard
succeeds as a one-second repeat interval. -/
theorem wildcard_seconds_requires_all_wild (f : CronFields) (raw s : String)
    (hw : f.second.wildcard = true) :
    (allOtherFieldsWild f = false →
      translateFields f raw s = .error .wildcardSecondsNeedsWildcards) ∧
    (allOtherFieldsWild f = true →
      translateFields f raw s = .ok (.startInterval 1)) := by
  constructor
  · intro haw
    simp [translateFields, hw, haw]
  · intro haw
    have hftc := fieldsToCreate_eq_nil_of_allWild haw
    simp [translateFields, hw, haw, expand, hftc]

/-- The parsed form of "* 1 * * * *": wildcard seconds with a fixed
hour field. -/
def wildSecondHourFixed : CronFields :=
  ⟨wildcardField 0 59, wildcardField 0 59, ⟨false, [1]⟩,
   wildcardField 1 31, wildcardField 1 12, wildcardField 0 7⟩

/-- Witness for C6 at the parsed form of "* 1 * * * *". -/
theorem wildcard_seconds_requires_all_wild_witness :
    (allOtherFieldsWild wildSecondHourFixed = false →
      translateFields wildSecondHourFixed "*" "x" =
        .error .wildcardSecondsNeedsWildcards) ∧
    (allOtherFieldsWild wildSecondHourFixed = true →
      translateFields wildSecondHourFixed "*" "x" = .ok (.startInterval 1)) :=
  wildcard_seconds_requires_all_wild wildSecondHourFixed "*" "x" rfl

lemma length_intRange (lo hi : Int) : (intRange lo hi).length = (hi - lo).toNat + 1 := by
  rw [intRange, List.length_map, List.length_range]

lemma intRange_ne_nil (lo hi : Int) : intRange lo hi ≠ [] := by
  intro h
  have hl := length_intRange lo hi
  rw [h] at hl
  simp at hl

/-- C4: when the product of the non-wildcard field cardinalities exceeds
65536 the translation fails with the explosion error reporting the
computed total and produces no calendar entries; when the product is at
most 65536 the explosion check passes and the entries are produced. -/
theorem explosion_ceiling (f : CronFields) (raw s : String)
    (hw : f.second.wildcard = false) (hv : f.second.values = [0])
    (hne : fieldsToCreate f ≠ [])
    (hvals : ∀ p ∈ fieldsToCreate f, p.2 ≠ []) :
    (totalPermutations (fieldsToCreate f) > 65536 →
      translateFields f raw s =
        .error (.tooManyPermutations (totalPermutations (fieldsToCreate f))) ∧
      errorMessage (.tooManyPermutations (totalPermutations (fieldsToCreate f))) =
        "Too many permutations: " ++
          toString (totalPermutations (fieldsToCreate f))) ∧
    (totalPermutations (fieldsToCreate f) ≤ 65536 →
      translateFields f raw s =
        .ok (.startCalendarInterval
          (buildEntries (fieldsToCreate f) (totalPermutations (fieldsToCreate f)))) ∧
      (buildEntries (fieldsToCreate f)
        (totalPermutations (fieldsToCreate f))).length =
          totalPermutations (fieldsToCreate f)) := by
  have hnw : allOtherFieldsWild f = false := by
    cases haw : allOtherFieldsWild f with
    | false => rfl
    | true => exact absurd (fieldsToCreate_eq_nil_of_allWild haw) hne
  rw [translateFields_defaultedZero f raw s hw hv hnw]
  have hie : (fieldsToCreate f).isEmpty = false := List.isEmpty_eq_false.mpr hne
  have hpow : (2 : Nat) ^ 16 = 65536 := by norm_num
  constructor
  · intro hgt
    refine ⟨?_, rfl⟩
    simp only [expand, hie, Bool.false_and, Bool.false_eq_true, if_false]
    rw [hpow, if_pos hgt]
  · intro hle
    have hpos := totalPermutations_pos (fieldsToCreate f) hvals
    have hent := buildEntries_ne_nil (fieldsToCreate f)
      (totalPermutations (fieldsToCreate f)) hpos
    refine ⟨?_, length_buildEntries _ _⟩
    simp only [expand, hie, Bool.false_and, Bool.false_eq_true, if_false]
    rw [hpow, if_neg (by omega), List.isEmpty_eq_false.mpr hent]
    simp

/-- The parsed form of a 5-field expression listing every minute, hour,
day of month and month value: 60 × 24 × 31 × 12 = 535680 permutations,
far beyond the 65536 ceiling. -/
def explosionFields : CronFields :=
  ⟨defaultSecond, ⟨false, intRange 0 59⟩, ⟨false, intRange 0 23⟩,
   ⟨false, intRange 1 31⟩, ⟨false, intRange 1 12⟩, wildcardField 0 7⟩

lemma fieldsToCreate_explosionFields :
    fieldsToCreate explosionFields =
      [("Minute", intRange 0 59), ("Hour", intRange 0 23),
       ("Day", intRange 1 31), ("Month", intRange 1 12)] := rfl

/-- Witness for C4 at the over-ceiling field set `explosionFields`. -/
theorem explosion_ceiling_witness :
    (totalPermutations (fieldsToCreate explosionFields) > 65536 →
      translateFields explosionFields "0" "x" =
        .error (.tooManyPermutations
          (totalPermutations (fieldsToCreate explosionFields))) ∧
      errorMessage (.tooManyPermutations
          (totalPermutations (fieldsToCreate explosionFields))) =
        "Too many permutations: " ++
          toString (totalPermutations (fieldsToCreate explosionFields))) ∧
    (totalPermutations (fieldsToCreate explosionFields) ≤ 65536 →
      translateFields explosionFields "0" "x" =
        .ok (.startCalendarInterval
          (buildEntries (fieldsToCreate explosionFields)
            (totalPermutations (fieldsToCreate explosionFields)))) ∧
      (buildEntries (fieldsToCreate explosionFields)
        (totalPermutations (fieldsToCreate explosionFields))).length =
          totalPermutations (fieldsToCreate explosionFields)) :=
  explosion_ceiling explosionFields "0" "x" rfl rfl
    (by rw [fieldsToCreate_explosionFields]; simp)
    (by
      rw [fieldsToCreate_explosionFields]
      intro p hp
      simp only [List.mem_cons, List.not_mem_nil, or_false] at hp
      rcases hp with h | h | h | h <;> rw [h] <;> exact intRange_ne_nil _ _)

lemma seven_not_mem_deduplicateWeekdays (vals : List Int) :
    (7 : Int) ∉ deduplicateWeekdays vals := by
  by_cases h7 : (7 : Int) ∈ vals
  · by_cases h0 : (0 : Int) ∈ vals
    · rw [show deduplicateWeekdays vals =
          vals.filter (fun v => decide (v ≠ 7)) from by
        simp [deduplicateWeekdays, h0, h7]]
      intro hc
      rw [List.mem_filter] at hc
      simp at hc
    · rw [show deduplicateWeekdays vals =
          vals.map (fun v => if v = 7 then 0 else v) from by
        simp [deduplicateWeekdays, h0, h7]]
      intro hc
      rw [List.mem_map] at hc
      obtain ⟨v, _, heq⟩ := hc
      by_cases hv7 : v = 7
      · rw [if_pos hv7] at heq
        exact absurd heq (by norm_num)
      · rw [if_neg hv7] at heq
        exact hv7 heq
  · rw [show deduplicateWeekdays vals = vals from by
      simp [deduplicateWeekdays, h7]]
    exact h7

lemma calendar_entries_shape {f : CronFields} {raw s : String}
    {entries : List (List (String × Int))}
    (h : translateFields f raw s = .ok (.startCalendarInterval entries)) :
    entries = buildEntries (fieldsToCreate f)
        (totalPermutations (fieldsToCreate f)) ∨
    entries = buildEntries [("Minute", f.minute.values)]
        (totalPermutations [("Minute", f.minute.values)]) := by
  unfold translateFields expand at h
  dsimp only at h
  repeat' split at h
  all_goals simp_all

/-- C7: weekday deduplication follows the three source cases (drop 7
when 0 is also present, rewrite 7 to 0 when 0 is absent, leave the list
unchanged otherwise), its result never contains 7, and consequently no
emitted calendar entry ever assigns the Weekday key the value 7. -/
theorem weekday_dedup_no_seven :
    (∀ vals : List Int,
      ((0 : Int) ∈ vals ∧ (7 : Int) ∈ vals →
        deduplicateWeekdays vals = vals.filter fun v => decide (v ≠ 7)) ∧
      ((7 : Int) ∈ vals ∧ (0 : Int) ∉ vals →
        deduplicateWeekdays vals = vals.map fun v => if v = 7 then 0 else v) ∧
      ((7 : Int) ∉ vals → deduplicateWeekdays vals = vals) ∧
      (7 : Int) ∉ deduplicateWeekdays vals) ∧
    (∀ (f : CronFields) (raw s : String) (entries : List (List (String × Int))),
      translateFields f raw s = .ok (.startCalendarInterval entries) →
      ∀ e ∈ entries, ("Weekday", (7 : Int)) ∉ e) := by
  constructor
  · intro vals
    refine ⟨?_, ?_, ?_, seven_not_mem_deduplicateWeekdays vals⟩
    · rintro ⟨h0, h7⟩
      simp [deduplicateWeekdays, h0, h7]
    · rintro ⟨h7, h0⟩
      simp [deduplicateWeekdays, h0, h7]
    · intro h7
      simp [deduplicateWeekdays, h7]
  · intro f raw s entries htr e he hmem
    rcases calendar_entries_shape htr with hsh | hsh
    · subst hsh
      obtain ⟨i, _, rfl⟩ := mem_buildEntries he
      unfold permutationEntry at hmem
      rw [List.mem_map] at hmem
      obtain ⟨p, hp, heq⟩ := hmem
      rw [Prod.mk.injEq] at heq
      obtain ⟨hk, hv⟩ := heq
      rcases mem_fieldsToCreate hp with hc | hc | hc | hc | hc
      · rw [hc] at hk
        exact (show ("Minute" : String) ≠ "Weekday" by decide) hk
      · rw [hc] at hk
        exact (show ("Hour" : String) ≠ "Weekday" by decide) hk
      · rw [hc] at hk
        exact (show ("Day" : String) ≠ "Weekday" by decide) hk
      · rw [hc] at hk
        exact (show ("Month" : String) ≠ "Weekday" by decide) hk
      · rw [hc] at hv
        cases hd : deduplicateWeekdays f.dayOfWeek.values with
        | nil =>
          rw [hd] at hv
          simp at hv
        | cons a l =>
          have hlen : 0 < (deduplicateWeekdays f.dayOfWeek.values).length := by
            rw [hd]
            simp
          have hlt := Nat.mod_lt i hlen
          rw [List.getD_eq_getElem _ _ hlt] at hv
          exact seven_not_mem_deduplicateWeekdays f.dayOfWeek.values
            (hv ▸ List.getElem_mem hlt)
    · subst hsh
      obtain ⟨i, _, rfl⟩ := mem_buildEntries he
      unfold permutationEntry at hmem
      rw [List.mem_map] at hmem
      obtain ⟨p, hp, heq⟩ := hmem
      rw [Prod.mk.injEq] at heq
      obtain ⟨hk, _⟩ := heq
      simp only [List.mem_cons, List.not_mem_nil, or_false] at hp
      rw [hp] at hk
      exact (show ("Minute" : String) ≠ "Weekday" by decide) hk

/-- C8: a field set with no non-wildcard non-second fields and a
defaulted explicit seconds value 0 whose raw token has no step syntax
expands to exactly 60 calendar entries, one per minute value 0 through
59, each constraining only the Minute key. -/
theorem every_minute_expansion (f : CronFields) (raw s : String)
    (hw : f.second.wildcard = false) (hv : f.second.values = [0])
    (hslash : raw.data.contains '/' = false)
    (haw : allOtherFieldsWild f = true)
    (hmin : f.minute.values = intRange 0 59) :
    translateFields f raw s =
      .ok (.startCalendarInterval
        ((List.range 60).map fun i => [("Minute", Int.ofNat i)])) ∧
    ((List.range 60).map fun i => [("Minute", Int.ofNat i)]).length = 60 := by
  refine ⟨?_, by simp⟩
  rw [translateFields_defaultedZero_wild f raw s hw hv hslash]
  have hftc := fieldsToCreate_eq_nil_of_allWild haw
  have hlen : (intRange 0 59).length = 60 := by
    rw [length_intRange]
    decide
  have htot : totalPermutations [("Minute", intRange 0 59)] = 60 := by
    simp [totalPermutations, hlen]
  have hentry : buildEntries [("Minute", intRange 0 59)] 60 =
      (List.range 60).map fun i => [("Minute", Int.ofNat i)] := by
    unfold buildEntries
    apply List.map_congr_left
    intro i hi
    rw [List.mem_range] at hi
    unfold permutationEntry
    simp only [List.map_cons, List.map_nil]
    have hmod : i % (intRange 0 59).length = i := by
      rw [hlen]
      exact Nat.mod_eq_of_lt hi
    rw [hmod, List.getD_eq_getElem _ _ (by rw [hlen]; exact hi)]
    simp [intRange]
  simp only [expand, hftc, List.isEmpty_nil, Bool.true_and, hw,
    Bool.false_eq_true, if_false, if_true, hmin, htot, hentry]
  rw [if_neg (by norm_num)]
  rw [List.isEmpty_eq_false.mpr (by simp)]
  simp

/-- The parsed form of a 5-field all-wildcard expression: seconds
defaulted to 0, every other field wildcard with its full range. -/
def everyMinuteFields : CronFields :=
  ⟨defaultSecond, wildcardField 0 59, wildcardField 0 23,
   wildcardField 1 31, wildcardField 1 12, wildcardField 0 7⟩

/-- Witness for C8 at the parsed form of "0 * * * *". -/
theorem every_minute_expansion_witness :
    translateFields everyMinuteFields "0" "x" =
      .ok (.startCalendarInterval
        ((List.range 60).map fun i => [("Minute", Int.ofNat i)])) ∧
    ((List.range 60).map fun i => [("Minute", Int.ofNat i)]).length = 60 :=
  every_minute_expansion everyMinuteFields "0" "x" rfl rfl (by decide) rfl rfl

lemma permutationEntry_pair (la lb : List Int) (i : Nat) :
    permutationEntry [("Minute", la), ("Hour", lb)] i =
      [("Minute", la.getD (i % la.length) 0),
       ("Hour", lb.getD (i % lb.length) 0)] := rfl

lemma getD_mem_of_lt {l : List Int} {n : Nat} (h : n < l.length) :
    l.getD n 0 ∈ l := by
  rw [List.getD_eq_getElem _ _ h]
  exact List.getElem_mem h

/-- C1: the expansion loop emits `total` entries with entry `i`
assigning each field the value at index `i mod` the field cardinality;
for two non-wildcard fields of coprime cardinalities (all other fields
wildcard, seconds defaulted to 0) it emits exactly the product number of
entries whose value pairs are exactly the full cross product. -/
theorem modulo_cycling_coprime_cross_product (la lb : List Int) (s : String)
    (ha : la ≠ []) (hb : lb ≠ [])
    (hco : Nat.Coprime la.length lb.length)
    (hbound : la.length * lb.length ≤ 65536) :
    (∀ (fields : List (String × List Int)) (total : Nat),
      (buildEntries fields total).length = total ∧
      ∀ i, i < total → (buildEntries fields total).getD i [] =
        fields.map fun p => (p.1, p.2.getD (i % p.2.length) 0)) ∧
    ∃ entries,
      translateFields (twoFieldSet la lb) "0" s =
        .ok (.startCalendarInterval entries) ∧
      entries.length = la.length * lb.length ∧
      (∀ i, i < la.length * lb.length →
        entries.getD i [] =
          [("Minute", la.getD (i % la.length) 0),
           ("Hour", lb.getD (i % lb.length) 0)]) ∧
      (∀ x ∈ la, ∀ y ∈ lb, ∃ i, i < la.length * lb.length ∧
        entries.getD i [] = [("Minute", x), ("Hour", y)]) ∧
      (∀ e ∈ entries, ∃ x, x ∈ la ∧ ∃ y, y ∈ lb ∧
        e = [("Minute", x), ("Hour", y)]) := by
  have hla : 0 < la.length := List.length_pos.mpr ha
  have hlb : 0 < lb.length := List.length_pos.mpr hb
  constructor
  · intro fields total
    exact ⟨length_buildEntries fields total,
      fun i hi => buildEntries_getD fields total i hi⟩
  refine ⟨buildEntries [("Minute", la), ("Hour", lb)]
    (la.length * lb.length), ?_, ?_, ?_, ?_, ?_⟩
  · exact translateFields_twoFieldSet la lb s ha hb (by norm_num at hbound ⊢; omega)
  · exact length_buildEntries _ _
  · intro i hi
    rw [buildEntries_getD _ _ _ hi, permutationEntry_pair]
  · intro x hx y hy
    obtain ⟨p, hp, hpx⟩ := List.getElem_of_mem hx
    obtain ⟨q, hq, hqy⟩ := List.getElem_of_mem hy
    refine ⟨(Nat.chineseRemainder hco p q).1,
      Nat.chineseRemainder_lt_mul hco p q (by omega) (by omega), ?_⟩
    have hkp : (Nat.chineseRemainder hco p q).1 % la.length = p := by
      have h3 : (Nat.chineseRemainder hco p q).1 % la.length = p % la.length :=
        (Nat.chineseRemainder hco p q).2.1
      rw [Nat.mod_eq_of_lt hp] at h3
      exact h3
    have hkq : (Nat.chineseRemainder hco p q).1 % lb.length = q := by
      have h3 : (Nat.chineseRemainder hco p q).1 % lb.length = q % lb.length :=
        (Nat.chineseRemainder hco p q).2.2
      rw [Nat.mod_eq_of_lt hq] at h3
      exact h3
    rw [buildEntries_getD _ _ _
      (Nat.chineseRemainder_lt_mul hco p q (by omega) (by omega)),
      permutationEntry_pair, hkp, hkq,
      List.getD_eq_getElem _ _ hp, List.getD_eq_getElem _ _ hq, hpx, hqy]
  · intro e he
    obtain ⟨i, _, rfl⟩ := mem_buildEntries he
    rw [permutationEntry_pair]
    exact ⟨_, getD_mem_of_lt (Nat.mod_lt i hla), _,
      getD_mem_of_lt (Nat.mod_lt i hlb), rfl⟩

/-- Witness for C1 at lists of coprime cardinalities 2 and 3. -/
theorem modulo_cycling_coprime_cross_product_witness :
    (∀ (fields : List (String × List Int)) (total : Nat),
      (buildEntries fields total).length = total ∧
      ∀ i, i < total → (buildEntries fields total).getD i [] =
        fields.map fun p => (p.1, p.2.getD (i % p.2.length) 0)) ∧
    ∃ entries,
      translateFields (twoFieldSet [10, 20] [1, 2, 3]) "0" "w" =
        .ok (.startCalendarInterval entries) ∧
      entries.length = ([10, 20] : List Int).length * ([1, 2, 3] : List Int).length ∧
      (∀ i, i < ([10, 20] : List Int).length * ([1, 2, 3] : List Int).length →
        entries.getD i [] =
          [("Minute", ([10, 20] : List Int).getD
              (i % ([10, 20] : List Int).length) 0),
           ("Hour", ([1, 2, 3] : List Int).getD
              (i % ([1, 2, 3] : List Int).length) 0)]) ∧
      (∀ x ∈ ([10, 20] : List Int), ∀ y ∈ ([1, 2, 3] : List Int),
        ∃ i, i < ([10, 20] : List Int).length * ([1, 2, 3] : List Int).length ∧
          entries.getD i [] = [("Minute", x), ("Hour", y)]) ∧
      (∀ e ∈ entries, ∃ x, x ∈ ([10, 20] : List Int) ∧
        ∃ y, y ∈ ([1, 2, 3] : List Int) ∧
          e = [("Minute", x), ("Hour", y)]) :=
  modulo_cycling_coprime_cross_product [10, 20] [1, 2, 3] "w"
    (by decide) (by decide) (by decide) (by decide)

/-- The parsed form of "0 0 1-7 * *": seconds defaulted to 0, minute 0,
hour 0, day of month 1 through 7, month and day of week wildcard. -/
def firstWeekFields : CronFields :=
  ⟨defaultSecond, ⟨false, [0]⟩, ⟨false, [0]⟩,
   ⟨false, [1, 2, 3, 4, 5, 6, 7]⟩, wildcardField 1 12, wildcardField 0 7⟩

/-- The entries the translator produces for "0 0 1-7 * *": the minute
field is non-wildcard, so every entry also pins Minute to 0. -/
def firstWeekEntries : List (List (String × Int)) :=
  (List.range 7).map fun i => [("Minute", 0), ("Hour", 0), ("Day", 1 + Int.ofNat i)]

/-- C9 counterexample: translating "0 0 1-7 * *" yields 7 entries, but
each entry is {Minute: 0, Hour: 0, Day: d}, not {Hour: 0, Day: d} as
claimed — the first entry carries the Minute key and is not the
two-field entry {Hour: 0, Day: 1}. -/
theorem first_week_counterexample :
    cronToPlistFragment "0 0 1-7 * *" firstWeekFields "0" =
      .ok (.startCalendarInterval firstWeekEntries) ∧
    firstWeekEntries.getD 0 [] = [("Minute", 0), ("Hour", 0), ("Day", 1)] ∧
    firstWeekEntries.getD 0 [] ≠ [("Hour", 0), ("Day", 1)] ∧
    ∀ e ∈ firstWeekEntries, ("Minute", (0 : Int)) ∈ e := by
  refine ⟨by decide, by decide, by decide, by decide⟩

/-- C9 (amended): translating "0 0 1-7 * *" yields exactly 7 calendar
entries, one per day value d in 1..7, each of the form
{Minute: 0, Hour: 0, Day: d}. -/
theorem first_week_amended :
    cronToPlistFragment "0 0 1-7 * *" firstWeekFields "0" =
      .ok (.startCalendarInterval firstWeekEntries) ∧
    firstWeekEntries.length = 7 ∧
    firstWeekEntries =
      [[("Minute", 0), ("Hour", 0), ("Day", 1)],
       [("Minute", 0), ("Hour", 0), ("Day", 2)],
       [("Minute", 0), ("Hour", 0), ("Day", 3)],
       [("Minute", 0), ("Hour", 0), ("Day", 4)],
       [("Minute", 0), ("Hour", 0), ("Day", 5)],
       [("Minute", 0), ("Hour", 0), ("Day", 6)],
       [("Minute", 0), ("Hour", 0), ("Day", 7)]] := by
  refine ⟨by decide, by decide, by decide⟩

lemma countP_mod_range (n k j : Nat) (hj : j < k) :
    (List.range (n * k)).countP (fun i => i % k == j) = n := by
  induction n with
  | zero => simp
  | succ n ih =>
    have hnk : (n + 1) * k = n * k + k := by ring
    rw [hnk, List.range_add, List.countP_append, ih]
    have h2 : ((List.range k).map fun i => n * k + i).countP
        (fun i => i % k == j) = (List.range k).countP (fun i => i == j) := by
      rw [List.countP_map]
      apply List.countP_congr
      intro i hi
      rw [List.mem_range] at hi
      simp only [Function.comp_apply]
      have hmod : (n * k + i) % k = i := by
        rw [Nat.add_comm, Nat.add_mul_mod_self_right, Nat.mod_eq_of_lt hi]
      rw [hmod]
    rw [h2]
    have h3 : (List.range k).countP (fun i => i == j) = 1 := by
      have hc : (List.range k).countP (fun i => i == j) =
          (List.range k).count j := rfl
      rw [hc]
      exact List.count_eq_one_of_mem (List.nodup_range k) (List.mem_range.mpr hj)
    omega

lemma nodup_getD_inj {l : List Int} (h : l.Nodup) {i j : Nat}
    (hi : i < l.length) (hj : j < l.length)
    (he : l.getD i 0 = l.getD j 0) : i = j := by
  rw [List.getD_eq_getElem _ _ hi, List.getD_eq_getElem _ _ hj] at he
  exact (List.Nodup.getElem_inj_iff h).mp he

lemma count_buildEntries_pair (la lb : List Int) (k j : Nat)
    (hka : la.length = k) (hkb : lb.length = k) (hk : 0 < k) (hj : j < k)
    (hna : la.Nodup) (hnb : lb.Nodup) :
    (buildEntries [("Minute", la), ("Hour", lb)] (k * k)).count
      [("Minute", la.getD j 0), ("Hour", lb.getD j 0)] = k := by
  have h1 : (buildEntries [("Minute", la), ("Hour", lb)] (k * k)).count
      [("Minute", la.getD j 0), ("Hour", lb.getD j 0)] =
      (List.range (k * k)).countP
        (fun i => permutationEntry [("Minute", la), ("Hour", lb)] i ==
          [("Minute", la.getD j 0), ("Hour", lb.getD j 0)]) := by
    rw [buildEntries]
    rw [show ((List.range (k * k)).map
        (permutationEntry [("Minute", la), ("Hour", lb)])).count
        [("Minute", la.getD j 0), ("Hour", lb.getD j 0)] =
        ((List.range (k * k)).map
          (permutationEntry [("Minute", la), ("Hour", lb)])).countP
          (· == [("Minute", la.getD j 0), ("Hour", lb.getD j 0)]) from rfl]
    rw [List.countP_map]
    rfl
  rw [h1]
  have h2 : (List.range (k * k)).countP
      (fun i => permutationEntry [("Minute", la), ("Hour", lb)] i ==
        [("Minute", la.getD j 0), ("Hour", lb.getD j 0)]) =
      (List.range (k * k)).countP (fun i => i % k == j) := by
    apply List.countP_congr
    intro i _
    rw [permutationEntry_pair, hka, hkb]
    have him : i % k < k := Nat.mod_lt i hk
    rcases eq_or_ne (i % k) j with hij | hij
    · rw [hij]
      simp
    · have hne1 : la.getD (i % k) 0 ≠ la.getD j 0 := by
        intro hc
        exact hij (nodup_getD_inj hna (hka ▸ him) (hka ▸ hj) hc)
      have hfa : ([("Minute", la.getD (i % k) 0), ("Hour", lb.getD (i % k) 0)] ==
          [("Minute", la.getD j 0), ("Hour", lb.getD j 0)]) = false := by
        rw [beq_eq_false_iff_ne]
        intro hc
        simp only [List.cons.injEq, Prod.mk.injEq] at hc
        exact hne1 hc.1.2
      rw [hfa, beq_eq_false_iff_ne.mpr hij]
  rw [h2]
  exact countP_mod_range k k j hj

/-- C10: for two non-wildcard fields of the same cardinality k (all
other fields wildcard, seconds defaulted to 0) the expansion emits k × k
entries, but entry i pairs the two value lists at the identical index
i mod k, so each of the k same-index combinations appears k times and a
combination pairing different indices never appears. -/
theorem equal_cardinality_not_cartesian (la lb : List Int) (s : String) (k : Nat)
    (hka : la.length = k) (hkb : lb.length = k) (hk2 : 2 ≤ k)
    (hbound : k * k ≤ 65536) (hna : la.Nodup) (hnb : lb.Nodup) :
    ∃ entries,
      translateFields (twoFieldSet la lb) "0" s =
        .ok (.startCalendarInterval entries) ∧
      entries.length = k * k ∧
      (∀ i, i < k * k → entries.getD i [] =
        [("Minute", la.getD (i % k) 0), ("Hour", lb.getD (i % k) 0)]) ∧
      (∀ j, j < k → entries.count
        [("Minute", la.getD j 0), ("Hour", lb.getD j 0)] = k) ∧
      (∀ p q, p < k → q < k → p ≠ q →
        [("Minute", la.getD p 0), ("Hour", lb.getD q 0)] ∉ entries) := by
  have hk : 0 < k := by omega
  have ha : la ≠ [] := by
    intro hc
    rw [hc] at hka
    simp at hka
    omega
  have hb : lb ≠ [] := by
    intro hc
    rw [hc] at hkb
    simp at hkb
    omega
  have htr := translateFields_twoFieldSet la lb s ha hb (by
    rw [hka, hkb]
    have h216 : (2 : Nat) ^ 16 = 65536 := by norm_num
    omega)
  rw [hka, hkb] at htr
  refine ⟨buildEntries [("Minute", la), ("Hour", lb)] (k * k),
    htr, ?_, ?_, ?_, ?_⟩
  · exact length_buildEntries _ _
  · intro i hi
    rw [buildEntries_getD _ _ _ hi, permutationEntry_pair, hka, hkb]
  · intro j hj
    exact count_buildEntries_pair la lb k j hka hkb hk hj hna hnb
  · intro p q hp hq hpq hmem
    obtain ⟨i, hik, heq⟩ := mem_buildEntries hmem
    rw [permutationEntry_pair, hka, hkb] at heq
    have him : i % k < k := Nat.mod_lt i hk
    simp only [List.cons.injEq, Prod.mk.injEq] at heq
    have hip : i % k = p :=
      nodup_getD_inj hna (hka ▸ him) (hka ▸ hp) heq.1.2.symm
    have hiq : i % k = q :=
      nodup_getD_inj hnb (hkb ▸ him) (hkb ▸ hq) heq.2.1.2.symm
    exact hpq (by omega)

/-- Witness for C10 at two lists of the shared cardinality 2. -/
theorem equal_cardinality_not_cartesian_witness :
    ∃ entries,
      translateFields (twoFieldSet [10, 20] [3, 4]) "0" "w" =
        .ok (.startCalendarInterval entries) ∧
      entries.length = 2 * 2 ∧
      (∀ i, i < 2 * 2 → entries.getD i [] =
        [("Minute", ([10, 20] : List Int).getD (i % 2) 0),
         ("Hour", ([3, 4] : List Int).getD (i % 2) 0)]) ∧
      (∀ j, j < 2 → entries.count
        [("Minute", ([10, 20] : List Int).getD j 0),
         ("Hour", ([3, 4] : List Int).getD j 0)] = 2) ∧
      (∀ p q, p < 2 → q < 2 → p ≠ q →
        [("Minute", ([10, 20] : List Int).getD p 0),
         ("Hour", ([3, 4] : List Int).getD q 0)] ∉ entries) :=
  equal_cardinality_not_cartesian [10, 20] [3, 4] "w" 2
    (by decide) (by decide) (by decide) (by decide) (by decide) (by decide)

end ItsOn
